import Mathlib

/-!
# git-lfs transfer engine: credentials, protocol client, transfer queue

A shallow embedding of `lfs/credentials.go`, `lfs/client.go` and
`lfs/transfer_queue.go`, and the properties of them that the specification
states.

Conventions of the embedding.

* A Go `string` is a Lean `String`; where the code converts a string to bytes
  (`[]byte(token)`) the bytes are those of its UTF-8 encoding.
* A Go `map[string]V` is an association list `GoMap V`; a read takes the first
  entry stored for the key, a write replaces the entries of the key.  A `nil`
  map is `none` where the code tells `nil` from a mapping.
* `range` over a map visits the entries in the order of the list; theorems are
  stated for every list, hence for every iteration order.
* Calls of the credential broker (`execCreds`) are recorded in a list of
  invocations, in the order in which they are made.
* Go's `error` values are represented by their `Error()` text.
-/

namespace Lfs

/-! ## Go maps -/

/-- Go `map[string]V`. -/
abbrev GoMap (V : Type) := List (String × V)

/-- Map read with the found flag: `v, ok := m[k]`. -/
def GoMap.get? {V : Type} (m : GoMap V) (k : String) : Option V :=
  match m with
  | [] => none
  | (k1, v) :: rest => if k1 = k then some v else GoMap.get? rest k

/-- Map write: `m[k] = v`. -/
def GoMap.set {V : Type} (m : GoMap V) (k : String) (v : V) : GoMap V :=
  (k, v) :: m.filter (fun e => decide (e.1 ≠ k))

/-- The keys of a map, in iteration order. -/
def GoMap.keys {V : Type} (m : GoMap V) : List String := m.map Prod.fst

/-! ## Strings and formatting (Go library functions used by the sources) -/

/-- The bytes of the UTF-8 encoding of one character. -/
def utf8EncodeChar (c : Char) : List Nat :=
  let n := c.toNat
  if n < 0x80 then [n]
  else if n < 0x800 then [0xC0 + n / 64, 0x80 + n % 64]
  else if n < 0x10000 then [0xE0 + n / 4096, 0x80 + n / 64 % 64, 0x80 + n % 64]
  else [0xF0 + n / 262144, 0x80 + n / 4096 % 64, 0x80 + n / 64 % 64, 0x80 + n % 64]

/-- Conversion `[]byte(s)`. -/
def bytesOf (s : String) : List Nat := s.data.flatMap utf8EncodeChar

/-- The function `fmt.Sprintf` for the verbs the sources use, `%s` and `%d`, with the
arguments already rendered as text; a verb without an argument is rendered
as Go does, `%!s(MISSING)`.  The formats of the sources hold no other verb;
every other character is copied. -/
def sprintfAux : List Char → List String → List Char
  | [], _ => []
  | [c], _ => [c]
  | c :: d :: rest, args =>
    if c = '%' ∧ (d = 's' ∨ d = 'd') then
      match args with
      | a :: more => a.data ++ sprintfAux rest more
      | [] => ['%', '!', d] ++ "(MISSING)".data ++ sprintfAux rest []
    else c :: sprintfAux (d :: rest) args

/-- The function `fmt.Sprintf(format, args...)`. -/
def Sprintf (format : String) (args : List String) : String :=
  String.mk (sprintfAux format.data args)

/-- The verb `%d` applied to an `int`. -/
def fmtInt (n : Int) : String := toString n

/-- The function `strings.TrimPrefix(s, "/")`. -/
def trimSlash (s : String) : String :=
  match s.data with
  | '/' :: rest => String.mk rest
  | _ => s

/-- The function `strings.Split(s, "\n")` on the characters of `s`. -/
def splitLines : List Char → List (List Char)
  | [] => [[]]
  | c :: cs =>
    if c = '\n' then [] :: splitLines cs
    else
      match splitLines cs with
      | [] => [[c]]
      | l :: ls => (c :: l) :: ls

/-- The function `strings.SplitN(line, "=", 2)`: the text before the first `=` and the
text after it, or `none` when the line has no `=` (the result then has
fewer than two pieces). -/
def splitEq : List Char → Option (List Char × List Char)
  | [] => none
  | c :: cs =>
    if c = '=' then some ([], cs)
    else
      match splitEq cs with
      | none => none
      | some (k, v) => some (c :: k, v)

/-! ## base64 (package `encoding/base64`) -/

/-- The alphabet of `base64.StdEncoding`. -/
def encodeStd : String :=
  "ABCDEFGHIJKLMNOPQRSTUVWXYZabcdefghijklmnopqrstuvwxyz0123456789+/"

/-- The alphabet of `base64.URLEncoding`. -/
def encodeURL : String :=
  "ABCDEFGHIJKLMNOPQRSTUVWXYZabcdefghijklmnopqrstuvwxyz0123456789-_"

/-- Padded base64 of a byte sequence over an alphabet, as
`(*Encoding).Encode` computes it: three bytes give four characters, a
remainder of one or two bytes is padded with `=`. -/
def encodeBytes (alphabet : List Char) : List Nat → List Char
  | [] => []
  | [b0] =>
    let val := b0 * 65536
    [alphabet.getD (val / 262144 % 64) '=', alphabet.getD (val / 4096 % 64) '=', '=', '=']
  | [b0, b1] =>
    let val := b0 * 65536 + b1 * 256
    [alphabet.getD (val / 262144 % 64) '=', alphabet.getD (val / 4096 % 64) '=',
      alphabet.getD (val / 64 % 64) '=', '=']
  | b0 :: b1 :: b2 :: rest =>
    let val := b0 * 65536 + b1 * 256 + b2
    [alphabet.getD (val / 262144 % 64) '=', alphabet.getD (val / 4096 % 64) '=',
      alphabet.getD (val / 64 % 64) '=', alphabet.getD (val % 64) '='] ++
      encodeBytes alphabet rest

/-- The call `enc.EncodeToString([]byte(s))`. -/
def EncodeToString (alphabet : String) (s : String) : String :=
  String.mk (encodeBytes alphabet.data (bytesOf s))

/-! ## HTTP data (package `net/http`, `net/url`) -/

/-- Whether a byte may occur in a header field name (an RFC 7230 token
character). -/
def validHeaderFieldByte (c : Char) : Bool :=
  c.isAlphanum ||
    decide (c.toNat ∈ [33, 35, 36, 37, 38, 39, 42, 43, 45, 46, 94, 95, 96, 124, 126])

/-- Letter case of a canonical header key: upper case at the start and after
each dash, lower case elsewhere. -/
def canonicalCase : Bool → List Char → List Char
  | _, [] => []
  | upper, c :: cs =>
    let c1 := if upper && c.isLower then c.toUpper
      else if !upper && c.isUpper then c.toLower else c
    c1 :: canonicalCase (c1 == '-') cs

/-- The function `textproto.CanonicalMIMEHeaderKey`: a key that is not a header field
name is returned unchanged. -/
def CanonicalMIMEHeaderKey (s : String) : String :=
  if s.data.all validHeaderFieldByte then String.mk (canonicalCase true s.data) else s

/-- The type `http.Header`, `map[string][]string`. -/
abbrev Header := GoMap (List String)

/-- The method `Header.Get`: the first value stored under the canonical form of the
key, `""` when there is none. -/
def Header.Get (h : Header) (key : String) : String :=
  match GoMap.get? h (CanonicalMIMEHeaderKey key) with
  | some (v :: _) => v
  | _ => ""

/-- The method `Header.Set`: the canonical form of the key is given the single value. -/
def Header.Set (h : Header) (key value : String) : Header :=
  GoMap.set h (CanonicalMIMEHeaderKey key) [value]

/-- The type `url.Userinfo`. -/
structure Userinfo where
  username : String
  password : Option String
  deriving DecidableEq, Repr

/-- The type `url.URL`; `Query` is what `u.Query()` returns, the parsed query
string, and `text` what `u.String()` returns. -/
structure URL where
  Scheme : String
  Host : String
  Path : String
  User : Option Userinfo
  Query : GoMap (List String)
  text : String
  deriving DecidableEq, Repr

/-- The fields of `http.Request` the sources read or write. -/
structure Request where
  Method : String
  URL : URL
  Header : Header
  deriving DecidableEq, Repr

/-- The fields of `http.Response` the sources read. -/
structure Response where
  StatusCode : Int
  Status : String
  Header : Header
  Request : Request
  deriving DecidableEq, Repr

/-! ## Errors (`lfs/errors.go`, which is not among the sources) -/

/-- Modelled from the spec: the error value of `lfs/errors.go`, a file that is
missing from the sources: a human-readable message together with structured
diagnostic context, kept apart from the message. -/
structure WrappedError where
  Message : String
  context : GoMap String
  deriving DecidableEq, Repr

/-- Modelled from the spec: the wrapper `Error(err)` of the missing
`lfs/errors.go`; it keeps the text of the error it wraps and starts with no
context. -/
def Error (text : String) : WrappedError := ⟨text, []⟩

/-- Modelled from the spec: `ErrorSetContext(err, key, value)` of the missing
`lfs/errors.go`; it attaches the pair to the context of the error and leaves
the message alone. -/
def ErrorSetContext (err : WrappedError) (key value : String) : WrappedError :=
  { err with context := GoMap.set err.context key value }

/-! ## `lfs/client.go` -/

/-- Table `hiddenHeaders`. -/
def hiddenHeaders : GoMap Bool := [("Authorization", true)]

/-- Table `defaultErrors`, `map[int]string`. -/
def defaultErrors : List (Int × String) :=
  [(400, "Client error: %s"),
   (401, "Authorization error: %s\nCheck that you have proper access to the repository"),
   (403, "Authorization error: %s\nCheck that you have proper access to the repository"),
   (404, "Repository or object not found: %s\nCheck that it exists and that you have proper access to it"),
   (500, "Server error: %s")]

/-- Type `linkRelation`. -/
structure linkRelation where
  Href : String
  Header : GoMap String
  deriving DecidableEq, Repr

/-- Type `objectError`. -/
structure objectError where
  Code : Int
  Message : String
  deriving DecidableEq, Repr

/-- Type `objectResource`; the two mappings hold pointers, `none` being the
`nil` pointer, and each mapping may itself be `nil`. -/
structure objectResource where
  Oid : String
  Size : Int
  Actions : Option (GoMap (Option linkRelation))
  Links : Option (GoMap (Option linkRelation))
  Error : Option objectError
  deriving DecidableEq, Repr

/-- A read `rel, ok = m[name]` of a possibly `nil` mapping of pointers. -/
def relLookup (m : Option (GoMap (Option linkRelation))) (name : String) :
    Option linkRelation × Bool :=
  match m with
  | none => (none, false)
  | some entries =>
    match GoMap.get? entries name with
    | some rel => (rel, true)
    | none => (none, false)

/-- Method `(*objectResource).Rel`. -/
def objectResource.Rel (o : objectResource) (name : String) : Option linkRelation × Bool :=
  if o.Actions.isSome then relLookup o.Actions name else relLookup o.Links name

/-- Function `defaultError`. -/
def defaultError (res : Response) : WrappedError :=
  let msgFmt :=
    match defaultErrors.lookup res.StatusCode with
    | some f => f
    | none =>
      if res.StatusCode < 500 then
        (defaultErrors.lookup 400).getD "" ++ Sprintf " from HTTP %d" [fmtInt res.StatusCode]
      else
        (defaultErrors.lookup 500).getD "" ++ Sprintf " from HTTP %d" [fmtInt res.StatusCode]
  Error (Sprintf msgFmt [res.Request.URL.text])

/-- Function `setRequestAuth`; returns the request after the call. -/
def setRequestAuth (req : Request) (user pass : String) : Request :=
  if user.length = 0 ∧ pass.length = 0 then req
  else
    let token := Sprintf "%s:%s" [user, pass]
    let auth := "Basic " ++ EncodeToString encodeURL token
    { req with Header := Header.Set req.Header "Authorization" auth }

/-- Function `setErrorHeaderContext`; returns the error after the call. -/
def setErrorHeaderContext (err : WrappedError) (pfx : String) (head : Header) : WrappedError :=
  head.foldl
    (fun e entry =>
      let key := entry.1
      let contextKey := Sprintf "%s:%s" [pfx, key]
      match GoMap.get? hiddenHeaders key with
      | some _ => ErrorSetContext e contextKey "--"
      | none => ErrorSetContext e contextKey (Header.Get head key))
    err

/-! ## `lfs/credentials.go` -/

/-- Type `Creds`. -/
abbrev Creds := GoMap String

/-- An index read `c[k]`, `""` for a key that is not there. -/
def Creds.at (c : Creds) (k : String) : String := (GoMap.get? c k).getD ""

/-- Method `Creds.Buffer`: the text written to the buffer. -/
def Creds.Buffer (c : Creds) : String :=
  c.foldl (fun buf e => buf ++ e.1 ++ "=" ++ e.2 ++ "\n") ""

/-- Type `credentialFunc`: the credentials (`none` for `nil`) and the error
(`none` for `nil`) it returns. -/
abbrev credentialFunc := Creds → String → Option Creds × Option String

/-- The error of `cmd.Start()` / `cmd.Wait()`: an `*exec.ExitError` or another
error, each with its `Error()` text. -/
inductive CmdError where
  | exit (text : String)
  | other (text : String)
  deriving DecidableEq, Repr

/-- Method `Error()` of the error of a command. -/
def CmdError.text : CmdError → String
  | .exit t => t
  | .other t => t

/-- What running the helper gave: the error of `Start`/`Wait` (`none` for
`nil`) and what it wrote to its standard output. -/
structure CmdRun where
  err : Option CmdError
  stdout : String
  deriving DecidableEq, Repr

/-- The loop of `execCredsCommand` that reads the output of the helper into a
fresh mapping. -/
def parseCreds (output : String) : Creds :=
  (splitLines output.data).foldl
    (fun creds line =>
      match splitEq line with
      | none => creds
      | some (k, v) => GoMap.set creds (String.mk k) (String.mk v))
    []

/-- Function `execCredsCommand`.  `terminalPrompt` is what
`Config.GetenvBool("GIT_TERMINAL_PROMPT", true)` returns and `run subCommand
stdin` what running `git credential <subCommand>` on that input gives. -/
def execCredsCommand (terminalPrompt : Bool) (run : String → String → CmdRun)
    (input : Creds) (subCommand : String) : Option Creds × Option String :=
  let r := run subCommand (Creds.Buffer input)
  let early : Option (Option Creds × Option String) :=
    match r.err with
    | some (.exit text) =>
      if !terminalPrompt then
        some (none, some (Sprintf
          "Change the GIT_TERMINAL_PROMPT env var to be prompted to enter your credentials for %s://%s."
          [Creds.at input "protocol", Creds.at input "host"]))
      else if subCommand = "fill" ∧ text = "exit status 128" then
        some (some input, none)
      else none
    | _ => none
  match early with
  | some result => result
  | none =>
    match r.err with
    | some e => (none, some (Sprintf "'git credential %s' error: %s\n" [subCommand, e.text]))
    | none => (some (parseCreds r.stdout), none)

/-- What a function of `credentials.go` leaves behind: the values it returns,
the request after the call, and the invocations of the broker it made. -/
structure CredsOutcome where
  creds : Option Creds
  err : Option String
  req : Request
  calls : List (Creds × String)
  deriving DecidableEq, Repr

/-- Function `fillCredentials`, over the broker `execCreds`. -/
def fillCredentials (execCreds : credentialFunc) (req : Request) (u : URL) : CredsOutcome :=
  let path := trimSlash u.Path
  let input0 : Creds := [("protocol", u.Scheme), ("host", u.Host), ("path", path)]
  let input : Creds :=
    match u.User with
    | some ui => if ui.username ≠ "" then GoMap.set input0 "username" ui.username else input0
    | none => input0
  let out := execCreds input "fill"
  let req1 :=
    match out.1, out.2 with
    | some creds, none => setRequestAuth req (Creds.at creds "username") (Creds.at creds "password")
    | _, _ => req
  ⟨out.1, out.2, req1, [(input, "fill")]⟩

/-- Function `skipCredsCheck`. -/
def skipCredsCheck (req : Request) : Bool :=
  if (Header.Get req.Header "Authorization").length > 0 then true
  else
    let q := req.URL.Query
    decide (((GoMap.get? q "token").getD []).length > 0)

/-- Function `getCreds`, over the broker `execCreds`. -/
def getCreds (execCreds : credentialFunc) (req : Request) : CredsOutcome :=
  if skipCredsCheck req then ⟨none, none, req, []⟩
  else fillCredentials execCreds req req.URL

/-- Function `saveCredentials`: the invocations of the broker it makes (`none` is the
`nil` mapping). -/
def saveCredentials (creds : Option Creds) (res : Response) : List (Creds × String) :=
  match creds with
  | none => []
  | some c =>
    if res.StatusCode = 401 ∨ res.StatusCode = 403 then [(c, "reject")]
    else if res.StatusCode < 300 then [(c, "approve")]
    else []

/-! ## `lfs/transfer_queue.go`

The queue runs one caller (the sequence of `Add` calls followed by `Wait`),
`workers` worker goroutines and one collector goroutine.  Each of them is
a small program counter; `step` runs one atomic action of the goroutine the
scheduler picks and is `none` when that goroutine is blocked or has ended.
An execution is a list of picks, so every interleaving is a schedule.  An
action that panics in Go (a send on a closed channel, a `Done` on a counter
at zero) ends the program without `Wait` returning; here it is no step.  The
progress meter and the `transferables` registry record nothing that
`Errors()` reads and are left out. -/

/-- Constant `batchSize`, the capacity of `transferc`. -/
def batchSize : Nat := 100

/-- Where a `transferWorker` goroutine stands. -/
inductive Worker (T E : Type) where
  /-- at `range q.transferc`, about to receive -/
  | idle
  /-- has received `t`, about to call `t.Transfer(cb)` -/
  | transferring (t : T)
  /-- the transfer returned the error `e`; at `q.errorc <- err` -/
  | sending (e : E)
  /-- past the error report, about to call `q.wait.Done()` -/
  | finishing
  /-- has left the loop: `transferc` was closed and empty -/
  | exited
  deriving DecidableEq, Repr

/-- Where the `errorCollector` goroutine stands. -/
inductive Collector (E : Type) where
  /-- at `range q.errorc`, about to receive -/
  | receiving
  /-- has received `e`, about to append it to `q.errors` -/
  | appending (e : E)
  /-- has left the loop and called `q.errorwait.Done()` -/
  | exited
  deriving DecidableEq, Repr

/-- Where the caller stands: it calls `Add` for each item and then `Wait`. -/
inductive Caller (T : Type) where
  /-- between calls of `Add`, with the items still to add; with none left,
  at `q.wait.Wait()` -/
  | adding (rest : List T)
  /-- inside `Add(t)` past `q.wait.Add(1)`, at `q.transferc <- transfer` -/
  | enqueueing (t : T) (rest : List T)
  /-- inside `Wait` past `q.wait.Wait()`, about to close `transferc` -/
  | closingTransferc
  /-- inside `Wait`, about to close `errorc` -/
  | closingErrorc
  /-- inside `Wait` at `q.errorwait.Wait()` -/
  | joining
  /-- `Wait` has returned -/
  | returned
  deriving DecidableEq, Repr

/-- The state of a `TransferQueue` and of the goroutines around it.
`transferred` is a record of the items whose `Transfer` has been called; no
goroutine reads it. -/
structure TransferQueue (T E : Type) where
  caller : Caller T
  workers : List (Worker T E)
  collector : Collector E
  transferc : List T
  transfercClosed : Bool
  errorcClosed : Bool
  wait : Nat
  errorwait : Nat
  errors : List E
  transferred : List T
  deriving DecidableEq, Repr

/-- Function `newTransferQueue` followed by the caller taking up its items: the
collector and `workers` workers are started, `errorwait` counts one. -/
def newTransferQueue {T E : Type} (workers : Nat) (items : List T) : TransferQueue T E :=
  { caller := Caller.adding items,
    workers := List.replicate workers Worker.idle,
    collector := Collector.receiving,
    transferc := [],
    transfercClosed := false,
    errorcClosed := false,
    wait := 0,
    errorwait := 1,
    errors := [],
    transferred := [] }

/-- The goroutine the scheduler picks. -/
inductive Pick where
  | caller
  | worker (i : Nat)
  | collector
  deriving DecidableEq, Repr

/-- One action of the caller: `Add` (`q.wait.Add(1)`, then the send, which
needs room in the buffer of `transferc`) and `Wait` (`q.wait.Wait()`, which
needs the counter at zero, the two `close` calls, and `q.errorwait.Wait()`). -/
def stepCaller {T E : Type} (q : TransferQueue T E) : Option (TransferQueue T E) :=
  match q.caller with
  | Caller.adding (t :: rest) =>
    some { q with caller := Caller.enqueueing t rest, wait := q.wait + 1 }
  | Caller.enqueueing t rest =>
    if q.transferc.length < batchSize then
      some { q with caller := Caller.adding rest, transferc := q.transferc ++ [t] }
    else none
  | Caller.adding [] =>
    if q.wait = 0 then some { q with caller := Caller.closingTransferc } else none
  | Caller.closingTransferc =>
    some { q with caller := Caller.closingErrorc, transfercClosed := true }
  | Caller.closingErrorc =>
    some { q with caller := Caller.joining, errorcClosed := true }
  | Caller.joining =>
    if q.errorwait = 0 then some { q with caller := Caller.returned } else none
  | Caller.returned => none

/-- One action of worker `i` (`transferWorker`): receive from `transferc` or
leave when it is closed and empty; call `Transfer`; hand a returned error to
the collector over the unbuffered `errorc`, which needs the collector at its
receive and the channel open; call `q.wait.Done()`. -/
def stepWorker {T E : Type} (outcome : T → Option E) (q : TransferQueue T E) (i : Nat) :
    Option (TransferQueue T E) :=
  match q.workers[i]? with
  | none => none
  | some Worker.idle =>
    match q.transferc with
    | t :: rest =>
      some { q with workers := q.workers.set i (Worker.transferring t), transferc := rest }
    | [] =>
      if q.transfercClosed then some { q with workers := q.workers.set i Worker.exited }
      else none
  | some (Worker.transferring t) =>
    match outcome t with
    | some e =>
      some { q with workers := q.workers.set i (Worker.sending e),
                    transferred := q.transferred ++ [t] }
    | none =>
      some { q with workers := q.workers.set i Worker.finishing,
                    transferred := q.transferred ++ [t] }
  | some (Worker.sending e) =>
    match q.collector, q.errorcClosed with
    | Collector.receiving, false =>
      some { q with workers := q.workers.set i Worker.finishing,
                    collector := Collector.appending e }
    | _, _ => none
  | some Worker.finishing =>
    if 0 < q.wait then
      some { q with workers := q.workers.set i Worker.idle, wait := q.wait - 1 }
    else none
  | some Worker.exited => none

/-- One action of the collector (`errorCollector`): append the error it has
received, or leave when `errorc` is closed and call `q.errorwait.Done()`. -/
def stepCollector {T E : Type} (q : TransferQueue T E) : Option (TransferQueue T E) :=
  match q.collector with
  | Collector.appending e =>
    some { q with collector := Collector.receiving, errors := q.errors ++ [e] }
  | Collector.receiving =>
    if q.errorcClosed ∧ 0 < q.errorwait then
      some { q with collector := Collector.exited, errorwait := q.errorwait - 1 }
    else none
  | Collector.exited => none

/-- One action of the goroutine picked. -/
def step {T E : Type} (outcome : T → Option E) (q : TransferQueue T E) :
    Pick → Option (TransferQueue T E)
  | Pick.caller => stepCaller q
  | Pick.worker i => stepWorker outcome q i
  | Pick.collector => stepCollector q

/-- The state a schedule leads to, `none` when it picks a goroutine that
cannot move. -/
def run {T E : Type} (outcome : T → Option E) (q : TransferQueue T E) :
    List Pick → Option (TransferQueue T E)
  | [] => some q
  | p :: ps =>
    match step outcome q p with
    | none => none
    | some q1 => run outcome q1 ps

/-- Method `Errors`. -/
def TransferQueue.Errors {T E : Type} (q : TransferQueue T E) : List E := q.errors

/-- The item a worker holds and has not yet transferred. -/
def Worker.held {T E : Type} : Worker T E → Multiset T
  | Worker.transferring t => {t}
  | _ => 0

/-- The error a worker has been returned and has not yet handed over. -/
def Worker.unsent {T E : Type} : Worker T E → Multiset E
  | Worker.sending e => {e}
  | _ => 0

/-- Whether a worker still owes a `q.wait.Done()`. -/
def Worker.busy {T E : Type} : Worker T E → Nat
  | Worker.transferring _ => 1
  | Worker.sending _ => 1
  | Worker.finishing => 1
  | _ => 0

/-- The items the caller has not yet put on `transferc`. -/
def Caller.pending {T : Type} : Caller T → Multiset T
  | Caller.adding rest => (rest : Multiset T)
  | Caller.enqueueing t rest => {t} + (rest : Multiset T)
  | _ => 0

/-- Whether the caller is inside `Add` past `q.wait.Add(1)`. -/
def Caller.counted {T : Type} : Caller T → Nat
  | Caller.enqueueing _ _ => 1
  | _ => 0

/-- Whether the caller is past `q.wait.Wait()`. -/
def Caller.pastWait {T : Type} : Caller T → Bool
  | Caller.adding _ => false
  | Caller.enqueueing _ _ => false
  | _ => true

/-- The error the collector has received and not yet appended. -/
def Collector.inHand {E : Type} : Collector E → Multiset E
  | Collector.appending e => {e}
  | _ => 0

/-- What the collector still owes to `errorwait`. -/
def Collector.owes {E : Type} : Collector E → Nat
  | Collector.exited => 0
  | _ => 1

/-- The invariant of the queue: every item is with the caller, on the channel,
with a worker or transferred; every error returned is with a worker, with
the collector or in `errors`; `wait` counts the items on the channel and the
workers that owe a `Done`; once the caller is past `q.wait.Wait()` the counter
stays at zero; `errorwait` is one until the collector has left, and `Wait`
returns only when it is zero. -/
def Invariant {T E : Type} (outcome : T → Option E) (items : List T)
    (q : TransferQueue T E) : Prop :=
  (items : Multiset T) =
      q.caller.pending + (q.transferc : Multiset T) + (q.workers.map Worker.held).sum +
        (q.transferred : Multiset T) ∧
  ((q.transferred.filterMap outcome : List E) : Multiset E) =
      (q.errors : Multiset E) + q.collector.inHand + (q.workers.map Worker.unsent).sum ∧
  q.wait = q.transferc.length + (q.workers.map Worker.busy).sum + q.caller.counted ∧
  (q.caller.pastWait = true → q.wait = 0) ∧
  (q.errorwait = q.collector.owes ∧ (q.caller = Caller.returned → q.errorwait = 0))

/-- The picks that take one item through the queue with worker 0 alone: the
two actions of `Add`, the receive, the transfer, for a failed transfer the
hand-over to the collector and its append, and `Done`. -/
def itemSchedule (failed : Bool) : List Pick :=
  [Pick.caller, Pick.caller, Pick.worker 0, Pick.worker 0] ++
    (if failed then [Pick.worker 0, Pick.collector] else []) ++ [Pick.worker 0]

/-- A schedule that runs the items one after the other and then `Wait`. -/
def sequentialSchedule {T E : Type} (outcome : T → Option E) : List T → List Pick
  | [] => [Pick.caller, Pick.caller, Pick.caller, Pick.collector, Pick.caller]
  | t :: rest => itemSchedule (outcome t).isSome ++ sequentialSchedule outcome rest

/-- Three items, the odd ones failing, for two workers. -/
def sampleOutcome : Nat → Option String :=
  fun n => if n % 2 = 1 then some ("failed " ++ toString n) else none

/-- A schedule of the sample run in which the two workers overlap. -/
def sampleSchedule : List Pick :=
  [Pick.caller, Pick.caller, Pick.caller, Pick.caller, Pick.worker 0, Pick.worker 1,
   Pick.caller, Pick.caller, Pick.worker 1, Pick.worker 0, Pick.worker 1, Pick.worker 1,
   Pick.worker 0, Pick.collector, Pick.worker 1, Pick.worker 0, Pick.worker 1,
   Pick.collector, Pick.worker 1, Pick.caller, Pick.caller, Pick.caller, Pick.worker 0,
   Pick.collector, Pick.worker 1, Pick.caller]

/-! ## Sample data -/

/-- The credentials of the scenario of the specification. -/
def sampleCreds : Creds := [("protocol", "https"), ("host", "example.com"), ("path", "x")]

/-- A URL without user information or query. -/
def sampleURL : URL :=
  { Scheme := "https", Host := "example.com", Path := "/x", User := none, Query := [],
    text := "https://example.com/x" }

/-- A request without headers. -/
def sampleRequest : Request := { Method := "GET", URL := sampleURL, Header := [] }

/-- A response to `sampleRequest` with the given status code. -/
def sampleResponse (status : Int) : Response :=
  { StatusCode := status, Status := "", Header := [], Request := sampleRequest }

/-- A descriptor in which both mappings define `upload`, with different
targets. -/
def sampleObject : objectResource :=
  { Oid := "abc", Size := 3,
    Actions := some [("upload", some { Href := "https://example.com/actions", Header := [] })],
    Links := some [("upload", some { Href := "https://example.com/links", Header := [] })],
    Error := none }

/-- A helper that exits with status 128 whatever it is given. -/
def helperNoCreds : String → String → CmdRun :=
  fun _ _ => { err := some (CmdError.exit "exit status 128"), stdout := "" }

/-- A broker that returns the mapping it is given, without error. -/
def echoBroker : credentialFunc := fun c _ => (some c, none)

/-- A request whose Authorization header is present with an empty value. -/
def emptyAuthRequest : Request :=
  { Method := "GET", URL := sampleURL, Header := [("Authorization", [""])] }

/-- A request whose URL carries a token parameter. -/
def tokenRequest : Request :=
  { Method := "GET", URL := { sampleURL with Query := [("token", ["t"])] }, Header := [] }

/-- Headers with a two-valued `Accept` and an `Authorization`. -/
def sampleHeader : Header := [("Accept", ["a", "b"]), ("Authorization", ["Basic c2VjcmV0"])]

/-- Headers in which a name that is not in canonical form, `authorization`,
stands beside `Authorization`. -/
def mixedCaseHeader : Header :=
  [("authorization", ["x"]), ("Authorization", ["Basic c2VjcmV0"])]

/-! # Properties -/

/-! ## Helper lemmas -/

theorem length_eq_zero_iff (s : String) : s.length = 0 ↔ s = "" := by
  cases s with
  | mk data =>
    cases data with
    | nil => exact ⟨fun _ => rfl, fun _ => rfl⟩
    | cons c cs =>
      constructor
      · intro h; simp [String.length] at h
      · intro h; exact absurd (congrArg String.data h) (by simp)

theorem Sprintf_pair (a b : String) : Sprintf "%s:%s" [a, b] = a ++ ":" ++ b := by
  apply String.ext
  show sprintfAux ['%', 's', ':', '%', 's'] [a, b] = (a ++ ":" ++ b).data
  simp [sprintfAux, String.data_append]

theorem canonical_Authorization : CanonicalMIMEHeaderKey "Authorization" = "Authorization" := by
  decide

theorem get?_set_self {V : Type} (m : GoMap V) (k : String) (v : V) :
    GoMap.get? (GoMap.set m k v) k = some v := by
  simp [GoMap.set, GoMap.get?]

/-! ## `saveCredentials` -/

/-- C1 (as amended): for a non-nil mapping `c`, `saveCredentials` invokes the
broker exactly once with `(c, "reject")` when the status is 401 or 403,
exactly once with `(c, "approve")` when the status is below 300 (statuses
below 200 included), and not at all for any other status. -/
theorem saveCredentials_invocations (c : Creds) (res : Response) :
    (res.StatusCode = 401 ∨ res.StatusCode = 403 →
      saveCredentials (some c) res = [(c, "reject")]) ∧
    (res.StatusCode < 300 → saveCredentials (some c) res = [(c, "approve")]) ∧
    (300 ≤ res.StatusCode → res.StatusCode ≠ 401 → res.StatusCode ≠ 403 →
      saveCredentials (some c) res = []) := by
  refine ⟨?_, ?_, ?_⟩
  · intro h
    simp [saveCredentials, h]
  · intro h
    have h1 : ¬ (res.StatusCode = 401 ∨ res.StatusCode = 403) := by omega
    simp [saveCredentials, h1, h]
  · intro h h1 h3
    have h2 : ¬ (res.StatusCode < 300) := by omega
    simp [saveCredentials, h1, h3, h2]

/-- C1, witness: the scenario of the specification, status 403 after using
the sample credentials. -/
theorem saveCredentials_invocations_witness :
    saveCredentials (some sampleCreds) (sampleResponse 403) = [(sampleCreds, "reject")] :=
  (saveCredentials_invocations sampleCreds (sampleResponse 403)).1 (Or.inr rfl)

/-- C1, counterexample: for status 100, which is below 200, the broker is
invoked with "approve". -/
theorem saveCredentials_status_100 :
    saveCredentials (some sampleCreds) (sampleResponse 100) = [(sampleCreds, "approve")] ∧
    saveCredentials (some sampleCreds) (sampleResponse 100) ≠ [] := by
  constructor
  · decide
  · decide

/-! ## `Rel` -/

/-- C4: on a descriptor whose "actions" and "_links" mappings are both
non-nil, `Rel(name)` is the read of `name` in "actions", relation and found
flag, whatever "_links" holds. -/
theorem Rel_prefers_actions (o : objectResource)
    (actions links : GoMap (Option linkRelation)) (name : String)
    (hactions : o.Actions = some actions) (_hlinks : o.Links = some links) :
    o.Rel name =
      match GoMap.get? actions name with
      | some rel => (rel, true)
      | none => (none, false) := by
  simp [objectResource.Rel, relLookup, hactions]

/-- C4, witness: both mappings define "upload" with different targets and
`Rel("upload")` returns the entry of "actions". -/
theorem Rel_prefers_actions_witness :
    sampleObject.Rel "upload" =
      (some { Href := "https://example.com/actions", Header := [] }, true) :=
  Rel_prefers_actions sampleObject
    [("upload", some { Href := "https://example.com/actions", Header := [] })]
    [("upload", some { Href := "https://example.com/links", Header := [] })]
    "upload" rfl rfl

/-! ## `setRequestAuth` -/

/-- C2 (as amended): `setRequestAuth` sets the Authorization header if and
only if user and pass are not both empty: when at least one of them is
non-empty the header is set (to the single value "Basic " followed by the
encoding of user:pass), and when both are empty the request is left exactly
as it was. -/
theorem setRequestAuth_sets_header (req : Request) (user pass : String) :
    (user ≠ "" ∨ pass ≠ "" →
      GoMap.get? (setRequestAuth req user pass).Header "Authorization" =
        some ["Basic " ++ EncodeToString encodeURL (user ++ ":" ++ pass)]) ∧
    (user = "" ∧ pass = "" → setRequestAuth req user pass = req) := by
  constructor
  · intro h
    have hne : ¬ (user.length = 0 ∧ pass.length = 0) := by
      rw [length_eq_zero_iff, length_eq_zero_iff]
      tauto
    simp only [setRequestAuth, hne, if_false, Sprintf_pair, Header.Set,
      canonical_Authorization, get?_set_self]
  · rintro ⟨hu, hp⟩
    subst hu hp
    rfl

/-- C2, witness: a user name with a password sets the header. -/
theorem setRequestAuth_sets_header_witness :
    GoMap.get? (setRequestAuth sampleRequest "user" "pass").Header "Authorization" =
      some ["Basic " ++ EncodeToString encodeURL ("user" ++ ":" ++ "pass")] :=
  (setRequestAuth_sets_header sampleRequest "user" "pass").1 (Or.inl (by decide))

/-- C2, counterexample: with a user name and an empty password the
Authorization header is set and the headers of the request change. -/
theorem setRequestAuth_empty_pass :
    GoMap.get? (setRequestAuth sampleRequest "u" "").Header "Authorization" =
      some ["Basic dTo="] ∧
    (setRequestAuth sampleRequest "u" "").Header ≠ sampleRequest.Header := by
  constructor
  · decide
  · decide

/-- C3, the code at the failing input: for user "~" and pass "~" the header
is "Basic fjp-", written with the URL-safe alphabet, while the standard
alphabet of HTTP Basic Authentication gives "Basic fjp+". -/
theorem setRequestAuth_urlsafe_alphabet :
    GoMap.get? (setRequestAuth sampleRequest "~" "~").Header "Authorization" =
      some ["Basic fjp-"] ∧
    "Basic " ++ EncodeToString encodeStd ("~" ++ ":" ++ "~") = "Basic fjp+" ∧
    GoMap.get? (setRequestAuth sampleRequest "" "").Header "Authorization" = none := by
  refine ⟨?_, ?_, ?_⟩
  · decide
  · decide
  · decide

/-! ## `defaultError` -/

theorem sprintfAux_plain (l : List Char) (args : List String) (h : '%' ∉ l) :
    sprintfAux l args = l := by
  induction l with
  | nil => rfl
  | cons c cs ih =>
    have hc : c ≠ '%' := fun e => h (by simp [e])
    have hcs : '%' ∉ cs := fun e => h (List.mem_cons_of_mem _ e)
    cases cs with
    | nil => rfl
    | cons d rest =>
      have := ih hcs
      simp [sprintfAux, hc, this]

theorem sprintfAux_append (pre rest : List Char) (args : List String) (h : '%' ∉ pre) :
    sprintfAux (pre ++ rest) args = pre ++ sprintfAux rest args := by
  induction pre with
  | nil => rfl
  | cons c cs ih =>
    have hc : c ≠ '%' := fun e => h (by simp [e])
    have hcs : '%' ∉ cs := fun e => h (List.mem_cons_of_mem _ e)
    have ih1 := ih hcs
    cases hl : cs ++ rest with
    | nil =>
      have h1 : cs = [] := (List.append_eq_nil.mp hl).1
      have h2 : rest = [] := (List.append_eq_nil.mp hl).2
      subst h1 h2
      simp [sprintfAux]
    | cons d more =>
      rw [hl] at ih1
      simp [sprintfAux, hc, hl, ih1]

theorem Sprintf_verb (pre post : String) (v : Char) (a : String) (hv : v = 's' ∨ v = 'd')
    (hpre : '%' ∉ pre.data) (hpost : '%' ∉ post.data) :
    Sprintf (pre ++ String.mk ['%', v] ++ post) [a] = pre ++ a ++ post := by
  apply String.ext
  simp only [Sprintf, String.data_append, List.append_assoc]
  rw [sprintfAux_append _ _ _ hpre]
  have : sprintfAux (['%', v] ++ post.data) [a] = a.data ++ post.data := by
    simp [sprintfAux, hv, sprintfAux_plain _ _ hpost]
  rw [this]

theorem digitChar_ne_percent (n : Nat) (h : n < 10) : Nat.digitChar n ≠ '%' := by
  interval_cases n <;> decide

theorem toDigitsCore_no_percent (fuel : Nat) :
    ∀ (n : Nat) (ds : List Char), '%' ∉ ds → '%' ∉ Nat.toDigitsCore 10 fuel n ds := by
  induction fuel with
  | zero => intro n ds h; simpa [Nat.toDigitsCore] using h
  | succ f ih =>
    intro n ds h
    have hd : '%' ∉ Nat.digitChar (n % 10) :: ds := by
      intro hm
      rcases List.mem_cons.mp hm with e | e
      · exact digitChar_ne_percent _ (Nat.mod_lt _ (by decide)) e.symm
      · exact h e
    simp only [Nat.toDigitsCore]
    split_ifs
    · exact hd
    · exact ih _ _ hd

theorem fmtInt_no_percent (n : Int) : '%' ∉ (fmtInt n).data := by
  cases n with
  | ofNat m =>
    show '%' ∉ (Nat.repr m).data
    exact toDigitsCore_no_percent _ _ _ (by simp)
  | negSucc m =>
    show '%' ∉ ("-" ++ Nat.repr (m + 1)).data
    rw [String.data_append]
    intro hm
    rcases List.mem_append.mp hm with e | e
    · revert e; decide
    · exact toDigitsCore_no_percent _ _ _ (by simp) e

theorem defaultError_unmapped (res : Response) (h400 : res.StatusCode ≠ 400)
    (h401 : res.StatusCode ≠ 401) (h403 : res.StatusCode ≠ 403) (h404 : res.StatusCode ≠ 404)
    (h500 : res.StatusCode ≠ 500) :
    (defaultError res).Message =
      (if res.StatusCode < 500 then "Client error: " else "Server error: ") ++
        res.Request.URL.text ++ (" from HTTP " ++ fmtInt res.StatusCode) := by
  have hlook : defaultErrors.lookup res.StatusCode = none := by
    have e400 : (res.StatusCode == 400) = false := by simpa using h400
    have e401 : (res.StatusCode == 401) = false := by simpa using h401
    have e403 : (res.StatusCode == 403) = false := by simpa using h403
    have e404 : (res.StatusCode == 404) = false := by simpa using h404
    have e500 : (res.StatusCode == 500) = false := by simpa using h500
    simp only [defaultErrors, List.lookup, e400, e401, e403, e404, e500]
  have hpost : '%' ∉ (" from HTTP " ++ fmtInt res.StatusCode).data := by
    rw [String.data_append]
    intro hm
    rcases List.mem_append.mp hm with e | e
    · revert e; decide
    · exact fmtInt_no_percent _ e
  have hd : Sprintf " from HTTP %d" [fmtInt res.StatusCode] =
      " from HTTP " ++ fmtInt res.StatusCode := by
    have := Sprintf_verb " from HTTP " "" 'd' (fmtInt res.StatusCode) (Or.inr rfl)
      (by decide) (by decide)
    simpa using this
  simp only [defaultError, hlook, hd, Error]
  split_ifs
  · exact Sprintf_verb "Client error: " _ 's' _ (Or.inl rfl) (by decide) hpost
  · exact Sprintf_verb "Server error: " _ 's' _ (Or.inl rfl) (by decide) hpost

theorem defaultError_mapped (res : Response) (f pre post : String)
    (hlook : defaultErrors.lookup res.StatusCode = some f)
    (hf : f = pre ++ String.mk ['%', 's'] ++ post)
    (hpre : '%' ∉ pre.data) (hpost : '%' ∉ post.data) :
    (defaultError res).Message = pre ++ res.Request.URL.text ++ post := by
  simp only [defaultError, hlook, Error, hf]
  exact Sprintf_verb pre post 's' _ (Or.inl rfl) hpre hpost

theorem infix_of_eq (msg pre mid post : String) (h : msg = pre ++ mid ++ post) :
    mid.data <:+: msg.data :=
  ⟨pre.data, post.data, by rw [h]; simp [String.data_append]⟩

/-- C5: the message of `defaultError` by status: for 404 it is the "Repository
or object not found" template filled with the request URL; for a status
outside the table and below 500 it is "Client error: <u> from HTTP <s>"; for a
status outside the table and at least 500 it is "Server error: <u> from HTTP
<s>", `<s>` being the decimal rendering of the status; and for every status
the message contains the request URL. -/
theorem defaultError_message (res : Response) :
    (res.StatusCode = 404 →
      (defaultError res).Message =
        "Repository or object not found: " ++ res.Request.URL.text ++
          "\nCheck that it exists and that you have proper access to it" ∧
      "Repository or object not found".data <:+: (defaultError res).Message.data) ∧
    (res.StatusCode ∉ ([400, 401, 403, 404, 500] : List Int) → res.StatusCode < 500 →
      (defaultError res).Message =
        "Client error: " ++ res.Request.URL.text ++ " from HTTP " ++ fmtInt res.StatusCode) ∧
    (res.StatusCode ∉ ([400, 401, 403, 404, 500] : List Int) → 500 ≤ res.StatusCode →
      (defaultError res).Message =
        "Server error: " ++ res.Request.URL.text ++ " from HTTP " ++ fmtInt res.StatusCode) ∧
    res.Request.URL.text.data <:+: (defaultError res).Message.data := by
  have m400 : res.StatusCode = 400 →
      (defaultError res).Message = "Client error: " ++ res.Request.URL.text ++ "" := fun h =>
    defaultError_mapped res _ _ _ (by rw [h]; rfl) (by decide) (by decide) (by decide)
  have m401 : res.StatusCode = 401 →
      (defaultError res).Message = "Authorization error: " ++ res.Request.URL.text ++
        "\nCheck that you have proper access to the repository" := fun h =>
    defaultError_mapped res _ _ _ (by rw [h]; rfl) (by decide) (by decide) (by decide)
  have m403 : res.StatusCode = 403 →
      (defaultError res).Message = "Authorization error: " ++ res.Request.URL.text ++
        "\nCheck that you have proper access to the repository" := fun h =>
    defaultError_mapped res _ _ _ (by rw [h]; rfl) (by decide) (by decide) (by decide)
  have m404 : res.StatusCode = 404 →
      (defaultError res).Message = "Repository or object not found: " ++ res.Request.URL.text ++
        "\nCheck that it exists and that you have proper access to it" := fun h =>
    defaultError_mapped res _ _ _ (by rw [h]; rfl) (by decide) (by decide) (by decide)
  have m500 : res.StatusCode = 500 →
      (defaultError res).Message = "Server error: " ++ res.Request.URL.text ++ "" := fun h =>
    defaultError_mapped res _ _ _ (by rw [h]; rfl) (by decide) (by decide) (by decide)
  have un : res.StatusCode ∉ ([400, 401, 403, 404, 500] : List Int) →
      (defaultError res).Message =
        (if res.StatusCode < 500 then "Client error: " else "Server error: ") ++
          res.Request.URL.text ++ (" from HTTP " ++ fmtInt res.StatusCode) := fun h =>
    defaultError_unmapped res (fun e => h (by simp [e])) (fun e => h (by simp [e]))
      (fun e => h (by simp [e])) (fun e => h (by simp [e])) (fun e => h (by simp [e]))
  refine ⟨fun h => ⟨m404 h, ?_⟩, ?_, ?_, ?_⟩
  · refine infix_of_eq _ "" _ (": " ++ res.Request.URL.text ++
      "\nCheck that it exists and that you have proper access to it") ?_
    rw [m404 h]
    apply String.ext
    simp [String.data_append]
  · intro h hlt
    rw [un h, if_pos hlt]; simp only [String.append_assoc]
  · intro h hge
    rw [un h, if_neg (by omega)]; simp only [String.append_assoc]
  · by_cases h : res.StatusCode ∈ ([400, 401, 403, 404, 500] : List Int)
    · simp only [List.mem_cons, List.mem_singleton, List.not_mem_nil, or_false] at h
      rcases h with h | h | h | h | h
      · exact infix_of_eq _ _ _ _ (m400 h)
      · exact infix_of_eq _ _ _ _ (m401 h)
      · exact infix_of_eq _ _ _ _ (m403 h)
      · exact infix_of_eq _ _ _ _ (m404 h)
      · exact infix_of_eq _ _ _ _ (m500 h)
    · exact infix_of_eq _ _ _ _ (un h)

/-- C5, witness: the unmapped status 418 gives the generic client-error
message with "418" appended. -/
theorem defaultError_message_witness :
    (defaultError (sampleResponse 418)).Message =
      "Client error: https://example.com/x from HTTP 418" :=
  (defaultError_message (sampleResponse 418)).2.1 (by decide) (by decide)


/-! ## `execCredsCommand`, `fillCredentials`, `getCreds` -/

/-- C6 (as amended): when prompting is not disabled (`GIT_TERMINAL_PROMPT`
reads as true) and the helper run for "fill" exits with status 128,
`execCredsCommand` returns the input mapping unchanged and no error, and so
does `fillCredentials` for the mapping it hands to the broker. -/
theorem execCredsCommand_no_credentials (run : String → String → CmdRun) (input : Creds)
    (req : Request) (u : URL)
    (hrun : (run "fill" (Creds.Buffer input)).err = some (CmdError.exit "exit status 128")) :
    execCredsCommand true run input "fill" = (some input, none) ∧
    ((fillCredentials (execCredsCommand true run) req u).calls = [(input, "fill")] →
      (fillCredentials (execCredsCommand true run) req u).creds = some input ∧
      (fillCredentials (execCredsCommand true run) req u).err = none) := by
  have h1 : execCredsCommand true run input "fill" = (some input, none) := by
    simp [execCredsCommand, hrun]
  refine ⟨h1, ?_⟩
  intro hcalls
  simp only [fillCredentials, List.cons.injEq, Prod.mk.injEq, and_true] at hcalls
  simp only [fillCredentials]
  rw [hcalls, h1]
  exact ⟨rfl, rfl⟩

/-- C6, witness: the sample credentials and a helper that exits with 128. -/
theorem execCredsCommand_no_credentials_witness :
    execCredsCommand true helperNoCreds sampleCreds "fill" = (some sampleCreds, none) ∧
    (fillCredentials (execCredsCommand true helperNoCreds) sampleRequest sampleURL).creds =
      some sampleCreds ∧
    (fillCredentials (execCredsCommand true helperNoCreds) sampleRequest sampleURL).err =
      none :=
  ⟨(execCredsCommand_no_credentials helperNoCreds sampleCreds sampleRequest sampleURL rfl).1,
    (execCredsCommand_no_credentials helperNoCreds sampleCreds sampleRequest sampleURL rfl).2
      (by decide)⟩

/-- C6, counterexample: with prompting disabled the same exit gives no
credentials and the "cannot prompt" error. -/
theorem execCredsCommand_prompt_disabled :
    execCredsCommand false helperNoCreds sampleCreds "fill" =
      (none, some "Change the GIT_TERMINAL_PROMPT env var to be prompted to enter your credentials for https://example.com.") ∧
    execCredsCommand false helperNoCreds sampleCreds "fill" ≠ (some sampleCreds, none) := by
  constructor
  · decide
  · decide

/-- C8 (as amended): `getCreds` returns no credentials and no error, invokes
the broker not at all and leaves the request as it was, when `Header.Get`
finds a non-empty Authorization value or the query of the URL holds a value
for "token"; for every other request it returns what `fillCredentials` on the
request and its URL returns, and that invokes the broker once, with "fill". -/
theorem getCreds_skips_or_fills (execCreds : credentialFunc) (req : Request) :
    (Header.Get req.Header "Authorization" ≠ "" ∨
        (GoMap.get? req.URL.Query "token").getD [] ≠ [] →
      getCreds execCreds req = { creds := none, err := none, req := req, calls := [] }) ∧
    (Header.Get req.Header "Authorization" = "" →
        (GoMap.get? req.URL.Query "token").getD [] = [] →
      getCreds execCreds req = fillCredentials execCreds req req.URL ∧
      ∃ input, (getCreds execCreds req).calls = [(input, "fill")]) := by
  constructor
  · intro h
    have hs : skipCredsCheck req = true := by
      unfold skipCredsCheck
      rcases h with h | h
      · have : (Header.Get req.Header "Authorization").length > 0 := by
          rcases Nat.eq_zero_or_pos (Header.Get req.Header "Authorization").length with e | e
          · exact absurd ((length_eq_zero_iff _).mp e) h
          · exact e
        simp [this]
      · split_ifs
        · rfl
        · simpa using List.length_pos.mpr h
    simp [getCreds, hs]
  · intro ha ht
    have hs : skipCredsCheck req = false := by
      simp [skipCredsCheck, ha, ht]
    simp [getCreds, hs, fillCredentials]

/-- C8, witness: a request whose URL carries a token is left alone. -/
theorem getCreds_skips_or_fills_witness :
    getCreds echoBroker tokenRequest =
      { creds := none, err := none, req := tokenRequest, calls := [] } :=
  (getCreds_skips_or_fills echoBroker tokenRequest).1 (Or.inr (by decide))

/-- C8, counterexample: a request that carries an Authorization header with
an empty value is not skipped: the broker is invoked with "fill" and
credentials are returned. -/
theorem getCreds_empty_authorization :
    GoMap.get? emptyAuthRequest.Header "Authorization" = some [""] ∧
    (getCreds echoBroker emptyAuthRequest).calls = [(sampleCreds, "fill")] ∧
    (getCreds echoBroker emptyAuthRequest).creds = some sampleCreds := by
  refine ⟨?_, ?_, ?_⟩
  · decide
  · decide
  · decide

/-! ## `setErrorHeaderContext` -/

theorem get?_set_other {V : Type} (m : GoMap V) (k k1 : String) (v : V) (h : k1 ≠ k) :
    GoMap.get? (GoMap.set m k1 v) k = GoMap.get? m k := by
  have hfilter : ∀ l : GoMap V,
      GoMap.get? (l.filter (fun e => decide (e.1 ≠ k1))) k = GoMap.get? l k := by
    intro l
    induction l with
    | nil => rfl
    | cons e es ih =>
      obtain ⟨a, b⟩ := e
      by_cases ha : a = k1
      · rw [List.filter_cons_of_neg (by simp [ha]), ih]
        have hak : a ≠ k := ha ▸ h
        simp only [GoMap.get?, hak, if_false]
      · rw [List.filter_cons_of_pos (by simp [ha])]
        simp only [GoMap.get?, ih]
  simp only [GoMap.set, GoMap.get?, h, if_false]
  exact hfilter m

theorem contextKey_injective (pfx k k1 : String)
    (h : Sprintf "%s:%s" [pfx, k] = Sprintf "%s:%s" [pfx, k1]) : k = k1 := by
  rw [Sprintf_pair, Sprintf_pair] at h
  have hd := congrArg String.data h
  simp only [String.data_append, List.append_assoc] at hd
  exact String.ext (List.append_cancel_left (List.append_cancel_left hd))

theorem hidden_iff (k : String) :
    GoMap.get? hiddenHeaders k = if k = "Authorization" then some true else none := by
  by_cases h : k = "Authorization"
  · subst h; rfl
  · have h1 : ¬ ("Authorization" = k) := fun e => h e.symm
    simp [hiddenHeaders, GoMap.get?, h, h1]

theorem headerContext_fold (pfx : String) (head : Header) :
    ∀ (l : Header) (err : WrappedError),
      ((l.foldl
        (fun e entry =>
          match GoMap.get? hiddenHeaders entry.1 with
          | some _ => ErrorSetContext e (Sprintf "%s:%s" [pfx, entry.1]) "--"
          | none => ErrorSetContext e (Sprintf "%s:%s" [pfx, entry.1]) (Header.Get head entry.1))
        err).Message = err.Message) ∧
      (∀ ck, (∀ k ∈ GoMap.keys l, Sprintf "%s:%s" [pfx, k] ≠ ck) →
        GoMap.get? (l.foldl
          (fun e entry =>
            match GoMap.get? hiddenHeaders entry.1 with
            | some _ => ErrorSetContext e (Sprintf "%s:%s" [pfx, entry.1]) "--"
            | none => ErrorSetContext e (Sprintf "%s:%s" [pfx, entry.1]) (Header.Get head entry.1))
          err).context ck = GoMap.get? err.context ck) ∧
      (∀ k ∈ GoMap.keys l,
        GoMap.get? (l.foldl
          (fun e entry =>
            match GoMap.get? hiddenHeaders entry.1 with
            | some _ => ErrorSetContext e (Sprintf "%s:%s" [pfx, entry.1]) "--"
            | none => ErrorSetContext e (Sprintf "%s:%s" [pfx, entry.1]) (Header.Get head entry.1))
          err).context (Sprintf "%s:%s" [pfx, k]) =
          some (if k = "Authorization" then "--" else Header.Get head k)) := by
  intro l
  induction l with
  | nil =>
    intro err
    exact ⟨rfl, fun _ _ => rfl, fun k hk => absurd hk (by simp [GoMap.keys])⟩
  | cons x xs ih =>
    intro err
    obtain ⟨a, vals⟩ := x
    simp only [List.foldl_cons]
    have hstep : ∃ e1 : WrappedError,
        (match GoMap.get? hiddenHeaders a with
          | some _ => ErrorSetContext err (Sprintf "%s:%s" [pfx, a]) "--"
          | none => ErrorSetContext err (Sprintf "%s:%s" [pfx, a]) (Header.Get head a)) = e1 ∧
        e1.Message = err.Message ∧
        e1.context = GoMap.set err.context (Sprintf "%s:%s" [pfx, a])
          (if a = "Authorization" then "--" else Header.Get head a) := by
      rw [hidden_iff]
      by_cases ha : a = "Authorization"
      · simp [ha, ErrorSetContext]
      · simp [ha, ErrorSetContext]
    obtain ⟨e1, he1, hmsg, hctx⟩ := hstep
    rw [he1]
    obtain ⟨ihm, ihother, ihkey⟩ := ih e1
    refine ⟨by rw [ihm, hmsg], ?_, ?_⟩
    · intro ck hck
      rw [ihother ck (fun k hk => hck k (by simp [GoMap.keys] at hk ⊢; exact Or.inr hk)), hctx]
      exact get?_set_other _ _ _ _ (hck a (by simp [GoMap.keys]))
    · intro k hk
      by_cases hin : k ∈ GoMap.keys xs
      · exact ihkey k hin
      · have hka : k = a := by
          simp only [GoMap.keys, List.map_cons, List.mem_cons] at hk hin
          rcases hk with e | e
          · exact e
          · exact absurd e hin
        subst hka
        rw [ihother _ (fun k1 hk1 e => hin (contextKey_injective pfx k1 k e ▸ hk1)), hctx]
        exact get?_set_self _ _ _

/-- C7 (as amended): `setErrorHeaderContext` leaves the message alone,
attaches one context entry per header name `k`, keyed "<prefix>:<k>", and
touches no other entry of the context: the entry for Authorization holds the
placeholder "--"; the entry for every other name in canonical form holds the
first of the values of that header ("" when it has none); every context key
that is not "<prefix>:<k>" for a header name `k` reads as before the call, so
nothing is recorded outside the entries of the header names.  What the entry
of a name that is not in canonical form holds is not stated. -/
theorem setErrorHeaderContext_entries (err : WrappedError) (pfx : String) (head : Header) :
    (setErrorHeaderContext err pfx head).Message = err.Message ∧
    (∀ k ∈ GoMap.keys head,
      GoMap.get? (setErrorHeaderContext err pfx head).context (pfx ++ ":" ++ k) ≠ none) ∧
    ("Authorization" ∈ GoMap.keys head →
      GoMap.get? (setErrorHeaderContext err pfx head).context (pfx ++ ":" ++ "Authorization") =
        some "--") ∧
    (∀ k ∈ GoMap.keys head, k ≠ "Authorization" → CanonicalMIMEHeaderKey k = k →
      GoMap.get? (setErrorHeaderContext err pfx head).context (pfx ++ ":" ++ k) =
        some (((GoMap.get? head k).getD []).headD "")) ∧
    (∀ ck : String, (∀ k ∈ GoMap.keys head, pfx ++ ":" ++ k ≠ ck) →
      GoMap.get? (setErrorHeaderContext err pfx head).context ck =
        GoMap.get? err.context ck) := by
  obtain ⟨hm, hframe, hkey⟩ := headerContext_fold pfx head head err
  have hentry : ∀ k ∈ GoMap.keys head,
      GoMap.get? (setErrorHeaderContext err pfx head).context (pfx ++ ":" ++ k) =
        some (if k = "Authorization" then "--" else Header.Get head k) := by
    intro k hk
    rw [← Sprintf_pair]
    exact hkey k hk
  refine ⟨hm, ?_, ?_, ?_, ?_⟩
  · intro k hk
    rw [hentry k hk]
    exact Option.some_ne_none _
  · intro hk
    rw [hentry _ hk, if_pos rfl]
  · intro k hk hne hc
    rw [hentry k hk, if_neg hne]
    unfold Header.Get
    rw [hc]
    cases h : GoMap.get? head k with
    | none => rfl
    | some vs =>
      cases vs with
      | nil => rfl
      | cons v more => rfl
  · intro ck hck
    exact hframe ck (fun k hk => by rw [Sprintf_pair]; exact hck k hk)

/-- C7, witness: on the sample headers the Authorization entry is redacted,
the Accept entry holds the first value, and a key that belongs to no header
stays absent. -/
theorem setErrorHeaderContext_entries_witness :
    GoMap.get? (setErrorHeaderContext (Error "e") "Request" sampleHeader).context
      ("Request" ++ ":" ++ "Authorization") = some "--" ∧
    GoMap.get? (setErrorHeaderContext (Error "e") "Request" sampleHeader).context
      ("Request" ++ ":" ++ "Accept") = some "a" ∧
    GoMap.get? (setErrorHeaderContext (Error "e") "Request" sampleHeader).context
      "Request:Accept:1" = none :=
  ⟨(setErrorHeaderContext_entries (Error "e") "Request" sampleHeader).2.2.1 (by decide),
    (setErrorHeaderContext_entries (Error "e") "Request" sampleHeader).2.2.2.1 "Accept"
      (by decide) (by decide) (by decide),
    (setErrorHeaderContext_entries (Error "e") "Request" sampleHeader).2.2.2.2
      "Request:Accept:1" (by decide)⟩

/-- C7, counterexample: for a header with the two values "a" and "b" the
entry holds "a" only, the second value does not occur in it; and for a name
that is not in canonical form, "authorization" with the value "x", the entry
holds neither "x" nor the placeholder but the value stored under
"Authorization". -/
theorem setErrorHeaderContext_first_value_only :
    (GoMap.get? sampleHeader "Accept" = some ["a", "b"] ∧
      GoMap.get? (setErrorHeaderContext (Error "e") "Request" sampleHeader).context
        "Request:Accept" = some "a" ∧
      ¬ ("b".data <:+: "a".data)) ∧
    (GoMap.get? mixedCaseHeader "authorization" = some ["x"] ∧
      GoMap.get? (setErrorHeaderContext (Error "e") "Request" mixedCaseHeader).context
        "Request:authorization" = some "Basic c2VjcmV0") := by
  refine ⟨⟨?_, ?_, ?_⟩, ?_, ?_⟩
  · decide
  · decide
  · decide
  · decide
  · decide

/-! ## The credential wire format -/

theorem Buffer_fold (c : Creds) :
    ∀ buf : String,
      (c.foldl (fun buf e => buf ++ e.1 ++ "=" ++ e.2 ++ "\n") buf).data =
        buf.data ++ c.flatMap (fun e => e.1.data ++ '=' :: (e.2.data ++ ['\n'])) := by
  induction c with
  | nil => intro buf; simp
  | cons e es ih =>
    intro buf
    rw [List.foldl_cons, ih]
    simp [String.data_append, List.flatMap_cons]

theorem splitLines_ne_nil (l : List Char) : splitLines l ≠ [] := by
  induction l with
  | nil => simp [splitLines]
  | cons c cs ih =>
    unfold splitLines
    split_ifs
    · simp
    · cases h : splitLines cs with
      | nil => exact absurd h ih
      | cons x xs => simp

theorem splitLines_line (l rest : List Char) (h : '\n' ∉ l) :
    splitLines (l ++ '\n' :: rest) = l :: splitLines rest := by
  induction l with
  | nil => simp [splitLines]
  | cons c cs ih =>
    have hc : c ≠ '\n' := fun e => h (by simp [e])
    have hcs : '\n' ∉ cs := fun e => h (List.mem_cons_of_mem _ e)
    rw [List.cons_append, splitLines, if_neg hc, ih hcs]

theorem splitEq_entry (k v : List Char) (h : '=' ∉ k) : splitEq (k ++ '=' :: v) = some (k, v) := by
  induction k with
  | nil => simp [splitEq]
  | cons c cs ih =>
    have hc : c ≠ '=' := fun e => h (by simp [e])
    have hcs : '=' ∉ cs := fun e => h (List.mem_cons_of_mem _ e)
    rw [List.cons_append, splitEq, if_neg hc, ih hcs]

theorem parse_fold (c : Creds)
    (hkeys : ∀ e ∈ c, '=' ∉ e.1.data ∧ '\n' ∉ e.1.data) (hvals : ∀ e ∈ c, '\n' ∉ e.2.data) :
    ∀ m : Creds,
      (splitLines (c.flatMap (fun e => e.1.data ++ '=' :: (e.2.data ++ ['\n'])))).foldl
        (fun creds line =>
          match splitEq line with
          | none => creds
          | some (k, v) => GoMap.set creds (String.mk k) (String.mk v))
        m = c.foldl (fun m e => GoMap.set m e.1 e.2) m := by
  induction c with
  | nil => intro m; simp [splitLines, splitEq]
  | cons e es ih =>
    intro m
    obtain ⟨hk1, hk2⟩ := hkeys e (by simp)
    have hv := hvals e (by simp)
    have hline : '\n' ∉ e.1.data ++ '=' :: e.2.data := by
      intro hm
      rcases List.mem_append.mp hm with h | h
      · exact hk2 h
      · rcases List.mem_cons.mp h with h | h
        · exact absurd h (by decide)
        · exact hv h
    have hsplit : splitLines ((e :: es).flatMap (fun e => e.1.data ++ '=' :: (e.2.data ++ ['\n']))) =
        (e.1.data ++ '=' :: e.2.data) ::
          splitLines (es.flatMap (fun e => e.1.data ++ '=' :: (e.2.data ++ ['\n']))) := by
      rw [List.flatMap_cons]
      have : (e.1.data ++ '=' :: (e.2.data ++ ['\n'])) ++
          es.flatMap (fun e => e.1.data ++ '=' :: (e.2.data ++ ['\n'])) =
          (e.1.data ++ '=' :: e.2.data) ++
            '\n' :: es.flatMap (fun e => e.1.data ++ '=' :: (e.2.data ++ ['\n'])) := by
        simp
      rw [this, splitLines_line _ _ hline]
    rw [hsplit, List.foldl_cons, List.foldl_cons, splitEq_entry _ _ hk1]
    exact ih (fun x hx => hkeys x (List.mem_cons_of_mem _ hx))
      (fun x hx => hvals x (List.mem_cons_of_mem _ hx)) _

theorem get?_eq_none {V : Type} (m : GoMap V) (k : String) (h : k ∉ GoMap.keys m) :
    GoMap.get? m k = none := by
  induction m with
  | nil => rfl
  | cons e es ih =>
    obtain ⟨a, b⟩ := e
    simp only [GoMap.keys, List.map_cons, List.mem_cons, not_or] at h
    have ha : a ≠ k := fun e => h.1 e.symm
    simp only [GoMap.get?, ha, if_false]
    exact ih h.2

theorem get?_foldl_set (c : Creds) (hnodup : (GoMap.keys c).Nodup) :
    ∀ (m : Creds) (k : String),
      GoMap.get? (c.foldl (fun m e => GoMap.set m e.1 e.2) m) k =
        match GoMap.get? c k with
        | some v => some v
        | none => GoMap.get? m k := by
  induction c with
  | nil => intro m k; rfl
  | cons e es ih =>
    intro m k
    obtain ⟨a, b⟩ := e
    simp only [GoMap.keys, List.map_cons, List.nodup_cons] at hnodup
    rw [List.foldl_cons, ih hnodup.2]
    by_cases ha : a = k
    · subst ha
      rw [get?_eq_none es a hnodup.1]
      simp [GoMap.get?, get?_set_self]
    · rw [get?_set_other _ _ _ _ ha]
      show _ = match (if a = k then some b else GoMap.get? es k) with
        | some v => some v
        | none => GoMap.get? m k
      rw [if_neg ha]

theorem mem_iff_get? {V : Type} (m : GoMap V) (hnodup : (GoMap.keys m).Nodup) (k : String)
    (v : V) : (k, v) ∈ m ↔ GoMap.get? m k = some v := by
  induction m with
  | nil => simp [GoMap.get?]
  | cons e es ih =>
    obtain ⟨a, b⟩ := e
    simp only [GoMap.keys, List.map_cons, List.nodup_cons] at hnodup
    by_cases ha : a = k
    · subst ha
      have hnot : (a, v) ∉ es := fun hm => hnodup.1 (List.mem_map.mpr ⟨(a, v), hm, rfl⟩)
      simp only [GoMap.get?, if_true, List.mem_cons, Prod.mk.injEq, true_and, hnot, or_false,
        Option.some.injEq]
      exact eq_comm
    · have hak : ¬ (k = a) := fun e => ha e.symm
      simp only [GoMap.get?, ha, if_false, List.mem_cons, Prod.mk.injEq, hak, false_and,
        false_or]
      exact ih hnodup.2

theorem get?_perm {V : Type} (m m1 : GoMap V) (hperm : m1.Perm m)
    (hnodup : (GoMap.keys m).Nodup) (k : String) : GoMap.get? m1 k = GoMap.get? m k := by
  have hnodup1 : (GoMap.keys m1).Nodup := (hperm.map Prod.fst).nodup_iff.mpr hnodup
  apply Option.ext
  intro v
  rw [Option.mem_def, Option.mem_def, ← mem_iff_get? m1 hnodup1, ← mem_iff_get? m hnodup]
  exact hperm.mem_iff

/-- C10: round trip of the credential wire format.  For a mapping whose keys
contain neither "=" nor a newline and whose values contain no newline, the
text `Creds.Buffer` writes for it, in whatever order the entries are visited,
is parsed by the loop of `execCredsCommand` into a mapping with the same
entries: every key reads the same in both. -/
theorem creds_roundtrip (c c1 : Creds) (hperm : c1.Perm c) (hnodup : (GoMap.keys c).Nodup)
    (hkeys : ∀ e ∈ c, '=' ∉ e.1.data ∧ '\n' ∉ e.1.data) (hvals : ∀ e ∈ c, '\n' ∉ e.2.data)
    (k : String) :
    GoMap.get? (parseCreds (Creds.Buffer c1)) k = GoMap.get? c k := by
  have hnodup1 : (GoMap.keys c1).Nodup := (hperm.map Prod.fst).nodup_iff.mpr hnodup
  have hdata : (Creds.Buffer c1).data =
      c1.flatMap (fun e => e.1.data ++ '=' :: (e.2.data ++ ['\n'])) := by
    unfold Creds.Buffer
    rw [Buffer_fold]
    rfl
  unfold parseCreds
  rw [hdata, parse_fold c1 (fun e he => hkeys e (hperm.mem_iff.mp he))
    (fun e he => hvals e (hperm.mem_iff.mp he)), get?_foldl_set c1 hnodup1,
    get?_perm c c1 hperm hnodup]
  cases GoMap.get? c k with
  | none => rfl
  | some v => rfl


/-- C10, witness: two entries written in the other order, one value holding
an "=": the parsed mapping reads the value unchanged. -/
theorem creds_roundtrip_witness :
    GoMap.get? (parseCreds (Creds.Buffer [("host", "example.com"), ("username", "a=b")]))
      "username" = some "a=b" :=
  creds_roundtrip [("username", "a=b"), ("host", "example.com")]
    [("host", "example.com"), ("username", "a=b")] (List.Perm.swap _ _ _)
    (by decide) (by decide) (by decide) "username"

/-! ## The transfer queue -/

theorem sum_map_set {α M : Type} [AddCommMonoid M] (f : α → M) :
    ∀ (l : List α) (i : Nat) (w w1 : α), l[i]? = some w →
      ((l.set i w1).map f).sum + f w = (l.map f).sum + f w1 := by
  intro l
  induction l with
  | nil => intro i w w1 h; simp at h
  | cons x xs ih =>
    intro i w w1 h
    cases i with
    | zero =>
      simp only [List.getElem?_cons_zero, Option.some.injEq] at h
      subst h
      simp only [List.set_cons_zero, List.map_cons, List.sum_cons]
      abel
    | succ j =>
      simp only [List.getElem?_cons_succ] at h
      have := ih j w w1 h
      simp only [List.set_cons_succ, List.map_cons, List.sum_cons]
      rw [add_assoc, this, add_assoc]

theorem coe_cons_eq {α : Type} (a : α) (l : List α) :
    ((a :: l : List α) : Multiset α) = {a} + (l : Multiset α) := by
  rw [← Multiset.cons_coe, Multiset.singleton_add]

theorem coe_append_eq {α : Type} (l1 l2 : List α) :
    ((l1 ++ l2 : List α) : Multiset α) = (l1 : Multiset α) + (l2 : Multiset α) :=
  (Multiset.coe_add l1 l2).symm

theorem Invariant_stepCaller {T E : Type} (outcome : T → Option E) (items : List T)
    (q q1 : TransferQueue T E) (hinv : Invariant outcome items q)
    (hstep : stepCaller q = some q1) : Invariant outcome items q1 := by
  obtain ⟨hA, hB, hC, hD, hE⟩ := hinv
  unfold stepCaller at hstep
  cases hc : q.caller with
  | adding rest =>
    cases rest with
    | nil =>
      rw [hc] at hstep
      simp only at hstep
      split_ifs at hstep with hw
      simp only [Option.some.injEq] at hstep
      subst hstep
      rw [hc] at hA hC
      exact ⟨by simpa [Caller.pending] using hA, hB, by simpa [Caller.counted] using hC,
        fun _ => hw, hE.1, by intro h; cases h⟩
    | cons t rest =>
      rw [hc] at hstep
      simp only [Option.some.injEq] at hstep
      subst hstep
      rw [hc] at hA hC
      refine ⟨by rw [hA]; simp only [Caller.pending, coe_cons_eq], hB, ?_,
        by simp [Caller.pastWait], hE.1, by intro h; cases h⟩
      simp only [Caller.counted] at hC ⊢
      omega
  | enqueueing t rest =>
    rw [hc] at hstep
    simp only at hstep
    split_ifs at hstep with hw
    simp only [Option.some.injEq] at hstep
    subst hstep
    rw [hc] at hA hC
    refine ⟨?_, hB, ?_, by simp [Caller.pastWait], hE.1, by intro h; cases h⟩
    · rw [hA]
      simp only [Caller.pending, coe_cons_eq, coe_append_eq, Multiset.coe_nil]
      abel
    · simp only [Caller.counted, List.length_append, List.length_singleton] at hC ⊢
      omega
  | closingTransferc =>
    rw [hc] at hstep
    simp only [Option.some.injEq] at hstep
    subst hstep
    rw [hc] at hA hC hD
    exact ⟨by simpa [Caller.pending] using hA, hB, by simpa [Caller.counted] using hC,
      fun _ => hD rfl, hE.1, by intro h; cases h⟩
  | closingErrorc =>
    rw [hc] at hstep
    simp only [Option.some.injEq] at hstep
    subst hstep
    rw [hc] at hA hC hD
    exact ⟨by simpa [Caller.pending] using hA, hB, by simpa [Caller.counted] using hC,
      fun _ => hD rfl, hE.1, by intro h; cases h⟩
  | joining =>
    rw [hc] at hstep
    simp only at hstep
    split_ifs at hstep with hw
    simp only [Option.some.injEq] at hstep
    subst hstep
    rw [hc] at hA hC hD
    exact ⟨by simpa [Caller.pending] using hA, hB, by simpa [Caller.counted] using hC,
      fun _ => hD rfl, hE.1, fun _ => hw⟩
  | returned =>
    rw [hc] at hstep
    simp at hstep


theorem Invariant_stepWorker {T E : Type} (outcome : T → Option E) (items : List T)
    (q q1 : TransferQueue T E) (i : Nat) (hinv : Invariant outcome items q)
    (hstep : stepWorker outcome q i = some q1) : Invariant outcome items q1 := by
  obtain ⟨hA, hB, hC, hD, hE⟩ := hinv
  unfold stepWorker at hstep
  cases hw : q.workers[i]? with
  | none => rw [hw] at hstep; simp at hstep
  | some w =>
    have hheld := fun w1 => sum_map_set Worker.held q.workers i w w1 hw
    have hunsent := fun w1 => sum_map_set Worker.unsent q.workers i w w1 hw
    have hbusy := fun w1 => sum_map_set Worker.busy q.workers i w w1 hw
    rw [hw] at hstep
    cases w with
    | idle =>
      simp only at hstep
      cases ht : q.transferc with
      | nil =>
        rw [ht] at hstep
        simp only at hstep
        split_ifs at hstep with hclosed
        simp only [Option.some.injEq] at hstep
        subst hstep
        have h1 := hheld Worker.exited
        have h2 := hunsent Worker.exited
        have h3 := hbusy Worker.exited
        simp only [Worker.held, Worker.unsent, Worker.busy, add_zero] at h1 h2 h3
        refine ⟨?_, ?_, ?_, ?_, hE⟩
        · dsimp only; rw [h1, ← ht]; exact hA
        · dsimp only; rw [h2]; exact hB
        · dsimp only; rw [h3, ← ht]; exact hC
        · exact hD
      | cons t rest =>
        rw [ht] at hstep
        simp only [Option.some.injEq] at hstep
        subst hstep
        have h1 := hheld (Worker.transferring t)
        have h2 := hunsent (Worker.transferring t)
        have h3 := hbusy (Worker.transferring t)
        simp only [Worker.held, Worker.unsent, Worker.busy, add_zero] at h1 h2 h3
        rw [ht] at hA hC
        refine ⟨?_, ?_, ?_, ?_, hE⟩
        · dsimp only
          rw [h1, hA]
          simp only [coe_cons_eq]
          abel
        · dsimp only; rw [h2]; exact hB
        · dsimp only
          rw [h3]
          simp only [List.length_cons] at hC
          omega
        · exact hD
    | transferring t =>
      simp only at hstep
      cases ho : outcome t with
      | none =>
        rw [ho] at hstep
        simp only [Option.some.injEq] at hstep
        subst hstep
        have h1 := hheld Worker.finishing
        have h2 := hunsent Worker.finishing
        have h3 := hbusy Worker.finishing
        simp only [Worker.held, Worker.unsent, Worker.busy, add_zero] at h1 h2 h3
        refine ⟨?_, ?_, ?_, ?_, hE⟩
        · dsimp only
          rw [hA, ← h1]
          simp only [coe_cons_eq, coe_append_eq, Multiset.coe_nil]
          abel
        · dsimp only
          rw [h2, List.filterMap_append]
          simpa [List.filterMap, ho] using hB
        · dsimp only; omega
        · exact hD
      | some e =>
        rw [ho] at hstep
        simp only [Option.some.injEq] at hstep
        subst hstep
        have h1 := hheld (Worker.sending e)
        have h2 := hunsent (Worker.sending e)
        have h3 := hbusy (Worker.sending e)
        simp only [Worker.held, Worker.unsent, Worker.busy, add_zero] at h1 h2 h3
        refine ⟨?_, ?_, ?_, ?_, hE⟩
        · dsimp only
          rw [hA, ← h1]
          simp only [coe_cons_eq, coe_append_eq, Multiset.coe_nil]
          abel
        · dsimp only
          have hf : List.filterMap outcome (q.transferred ++ [t]) =
              List.filterMap outcome q.transferred ++ [e] := by
            rw [List.filterMap_append]
            simp [List.filterMap, ho]
          rw [h2, hf, coe_append_eq, hB]
          simp only [coe_cons_eq, Multiset.coe_nil]
          abel
        · dsimp only; omega
        · exact hD
    | sending e =>
      simp only at hstep
      cases hcol : q.collector with
      | receiving =>
        cases hcl : q.errorcClosed with
        | true => rw [hcol, hcl] at hstep; simp at hstep
        | false =>
          rw [hcol, hcl] at hstep
          simp only [Option.some.injEq] at hstep
          subst hstep
          have h1 := hheld Worker.finishing
          have h2 := hunsent Worker.finishing
          have h3 := hbusy Worker.finishing
          simp only [Worker.held, Worker.unsent, Worker.busy, add_zero] at h1 h2 h3
          rw [hcol] at hB hE
          refine ⟨?_, ?_, ?_, ?_, ?_⟩
          · dsimp only; rw [h1]; exact hA
          · dsimp only
            rw [hB, ← h2]
            simp only [Collector.inHand]
            abel
          · dsimp only; omega
          · exact hD
          · exact ⟨by dsimp only; rw [hE.1]; rfl, hE.2⟩
      | appending e1 => rw [hcol] at hstep; simp at hstep
      | exited => rw [hcol] at hstep; simp at hstep
    | finishing =>
      simp only at hstep
      split_ifs at hstep with hpos
      simp only [Option.some.injEq] at hstep
      subst hstep
      have h1 := hheld Worker.idle
      have h2 := hunsent Worker.idle
      have h3 := hbusy Worker.idle
      simp only [Worker.held, Worker.unsent, Worker.busy, add_zero] at h1 h2 h3
      refine ⟨?_, ?_, ?_, ?_, hE⟩
      · dsimp only; rw [h1]; exact hA
      · dsimp only; rw [h2]; exact hB
      · dsimp only; omega
      · intro hp
        have := hD hp
        dsimp only
        omega
    | exited => simp at hstep

theorem Invariant_stepCollector {T E : Type} (outcome : T → Option E) (items : List T)
    (q q1 : TransferQueue T E) (hinv : Invariant outcome items q)
    (hstep : stepCollector q = some q1) : Invariant outcome items q1 := by
  obtain ⟨hA, hB, hC, hD, hE⟩ := hinv
  unfold stepCollector at hstep
  cases hcol : q.collector with
  | receiving =>
    rw [hcol] at hstep
    simp only at hstep
    split_ifs at hstep with hcl
    simp only [Option.some.injEq] at hstep
    subst hstep
    rw [hcol] at hB hE
    refine ⟨hA, ?_, hC, hD, ?_⟩
    · dsimp only
      simpa [Collector.inHand] using hB
    · refine ⟨?_, fun h => ?_⟩
      · dsimp only
        have := hE.1
        simp only [Collector.owes] at this ⊢
        omega
      · have := hE.2 h
        dsimp only
        omega
  | appending e =>
    rw [hcol] at hstep
    simp only [Option.some.injEq] at hstep
    subst hstep
    rw [hcol] at hB hE
    refine ⟨hA, ?_, hC, hD, ?_⟩
    · dsimp only
      rw [hB]
      simp only [Collector.inHand, coe_append_eq, coe_cons_eq, Multiset.coe_nil]
      abel
    · exact ⟨by dsimp only; rw [hE.1]; rfl, hE.2⟩
  | exited =>
    rw [hcol] at hstep
    simp at hstep


theorem Invariant_newTransferQueue {T E : Type} (outcome : T → Option E) (items : List T)
    (workers : Nat) : Invariant outcome items (newTransferQueue workers items) := by
  have hsum : ∀ n : Nat,
      ((List.replicate n (Worker.idle : Worker T E)).map Worker.held).sum = 0 ∧
      ((List.replicate n (Worker.idle : Worker T E)).map Worker.unsent).sum = 0 ∧
      ((List.replicate n (Worker.idle : Worker T E)).map Worker.busy).sum = 0 := by
    intro n
    induction n with
    | zero => exact ⟨rfl, rfl, rfl⟩
    | succ m ih =>
      obtain ⟨h1, h2, h3⟩ := ih
      simp only [List.replicate_succ, List.map_cons, List.sum_cons, h1, h2, h3]
      exact ⟨rfl, rfl, rfl⟩
  obtain ⟨h1, h2, h3⟩ := hsum workers
  refine ⟨?_, ?_, ?_, ?_, ?_, ?_⟩
  · simp only [newTransferQueue, h1, Caller.pending, Multiset.coe_nil, add_zero]
  · simp only [newTransferQueue, h2, Collector.inHand, List.filterMap_nil, Multiset.coe_nil,
      add_zero]
  · simp only [newTransferQueue, h3, Caller.counted, List.length_nil]
  · intro h; cases h
  · rfl
  · intro h; cases h

theorem Invariant_run {T E : Type} (outcome : T → Option E) (items : List T)
    (schedule : List Pick) :
    ∀ q q1 : TransferQueue T E, Invariant outcome items q →
      run outcome q schedule = some q1 → Invariant outcome items q1 := by
  induction schedule with
  | nil =>
    intro q q1 hinv hrun
    simp only [run, Option.some.injEq] at hrun
    exact hrun ▸ hinv
  | cons p ps ih =>
    intro q q1 hinv hrun
    simp only [run] at hrun
    cases hs : step outcome q p with
    | none => rw [hs] at hrun; simp at hrun
    | some q2 =>
      rw [hs] at hrun
      refine ih q2 q1 ?_ hrun
      cases p with
      | caller => exact Invariant_stepCaller outcome items q q2 hinv hs
      | worker i => exact Invariant_stepWorker outcome items q q2 i hinv hs
      | collector => exact Invariant_stepCollector outcome items q q2 hinv hs

theorem idle_of_not_busy {T E : Type} (ws : List (Worker T E))
    (h : (ws.map Worker.busy).sum = 0) :
    (ws.map Worker.held).sum = 0 ∧ (ws.map Worker.unsent).sum = 0 := by
  induction ws with
  | nil => exact ⟨rfl, rfl⟩
  | cons w rest ih =>
    simp only [List.map_cons, List.sum_cons] at h ⊢
    have hw : w.busy = 0 := by omega
    obtain ⟨h1, h2⟩ := ih (by omega)
    rw [h1, h2]
    cases w with
    | idle => exact ⟨rfl, rfl⟩
    | transferring t => simp [Worker.busy] at hw
    | sending e => simp [Worker.busy] at hw
    | finishing => exact ⟨rfl, rfl⟩
    | exited => exact ⟨rfl, rfl⟩

theorem run_sequentialSchedule {T E : Type} (outcome : T → Option E)
    (others : List (Worker T E)) :
    ∀ (items : List T) (errors : List E) (transferred : List T),
      run outcome
        { caller := Caller.adding items, workers := Worker.idle :: others,
          collector := Collector.receiving, transferc := [], transfercClosed := false,
          errorcClosed := false, wait := 0, errorwait := 1, errors := errors,
          transferred := transferred }
        (sequentialSchedule outcome items) =
      some
        { caller := Caller.returned, workers := Worker.idle :: others,
          collector := Collector.exited, transferc := [], transfercClosed := true,
          errorcClosed := true, wait := 0, errorwait := 0,
          errors := errors ++ items.filterMap outcome,
          transferred := transferred ++ items } := by
  intro items
  induction items with
  | nil =>
    intro errors transferred
    simp [sequentialSchedule, run, step, stepCaller, stepCollector]
  | cons t rest ih =>
    intro errors transferred
    cases ho : outcome t with
    | none =>
      simp [sequentialSchedule, itemSchedule, run, step, stepCaller, stepWorker, batchSize, ho,
        ih, List.filterMap_cons]
    | some e =>
      simp [sequentialSchedule, itemSchedule, run, step, stepCaller, stepWorker, stepCollector,
        batchSize, ho, ih, List.filterMap_cons]

/-- C9: for every list of items added to a queue with at least one worker,
`Wait()` can return, and for every interleaving of the caller, the workers
and the collector, once `Wait()` has returned `Errors()` is, as a multiset,
exactly the errors returned by the transfers that failed, each once, and
every item has been transferred once. -/
theorem Errors_after_Wait {T E : Type} (outcome : T → Option E) (items : List T)
    (workers : Nat) (hworkers : 1 ≤ workers) :
    (∃ schedule q, run outcome (newTransferQueue workers items) schedule = some q ∧
      q.caller = Caller.returned) ∧
    ∀ (schedule : List Pick) (q : TransferQueue T E),
      run outcome (newTransferQueue workers items) schedule = some q →
      q.caller = Caller.returned →
      q.Errors.Perm (items.filterMap outcome) ∧ q.transferred.Perm items := by
  constructor
  · obtain ⟨n, rfl⟩ : ∃ n, workers = n + 1 := ⟨workers - 1, by omega⟩
    exact ⟨sequentialSchedule outcome items, _,
      run_sequentialSchedule outcome (List.replicate n Worker.idle) items [] [], rfl⟩
  intro schedule q hrun hreturned
  obtain ⟨hA, hB, hC, hD, hE, hF⟩ :=
    Invariant_run outcome items schedule _ q
      (Invariant_newTransferQueue outcome items workers) hrun
  have hwait : q.wait = 0 := hD (by rw [hreturned]; rfl)
  have hbusy : (q.workers.map Worker.busy).sum = 0 := by omega
  have hchan : q.transferc = [] := List.length_eq_zero.mp (by omega)
  obtain ⟨hheld, hunsent⟩ := idle_of_not_busy q.workers hbusy
  have hcol : q.collector.inHand = 0 := by
    have h0 : q.collector.owes = 0 := by rw [← hE]; exact hF hreturned
    cases hc : q.collector with
    | receiving => rw [hc] at h0; simp [Collector.owes] at h0
    | appending e => rw [hc] at h0; simp [Collector.owes] at h0
    | exited => rfl
  rw [hreturned, hchan, hheld] at hA
  rw [hcol, hunsent] at hB
  simp only [Caller.pending, Multiset.coe_nil, add_zero, zero_add] at hA hB
  have hitems : q.transferred.Perm items := (Multiset.coe_eq_coe.mp hA).symm
  exact ⟨(Multiset.coe_eq_coe.mp hB).symm.trans (hitems.filterMap outcome), hitems⟩

/-- C9, witness: three items, the odd ones failing, two workers that overlap:
`Wait()` returns and `Errors()` holds the two failures. -/
theorem Errors_after_Wait_witness :
    ∃ q, run sampleOutcome (newTransferQueue 2 [1, 2, 3]) sampleSchedule = some q ∧
      q.caller = Caller.returned ∧ q.Errors = ["failed 1", "failed 3"] ∧
      q.Errors.Perm ([1, 2, 3].filterMap sampleOutcome) :=
  ⟨{ caller := Caller.returned, workers := [Worker.exited, Worker.exited],
     collector := Collector.exited, transferc := [], transfercClosed := true,
     errorcClosed := true, wait := 0, errorwait := 0,
     errors := ["failed 1", "failed 3"], transferred := [2, 1, 3] },
   by decide, rfl, rfl,
   ((Errors_after_Wait sampleOutcome [1, 2, 3] 2 (by decide)).2 sampleSchedule _
    (by decide) rfl).1⟩

end Lfs
